import Mathlib

/-!
Verification development for the reinsurance Monte Carlo risk engine
(`src/reinsurance.py`).

The source has two computational parts:

* `lognormal_params` (lines 70–74): converts severity moments `(mean, std)`
  into lognormal parameters `(mu, sigma)` using NumPy scalar math.  We embed
  it over `ℝ`, tracking the two ways Python/NumPy arithmetic can go wrong:
  the Python float division `std ** 2 / mean ** 2` raises `ZeroDivisionError`
  when `mean ** 2 == 0` (modelled with `Except`), while NumPy's `np.log` and
  `np.sqrt` never raise and instead return a non-finite value (`nan`/`-inf`)
  on arguments outside their domain (modelled with `Option ℝ`, `none` being
  the non-finite case).

* `run_engine` (lines 104–179): the simulation loop and the metrics
  reduction.  Randomness is abstracted as explicit inputs: each trial carries
  the uniform variates behind its `np.random.binomial(1, CLAIM_PROB,
  N_POLICIES)` call and the lognormal severity samples it draws.  Monetary
  amounts are modelled as rationals (exact arithmetic); the only metric that
  needs real numbers, `losses.std()`, takes a real square root of a rational
  variance.  `PREMIUMS[R]` (a Python dict lookup, `KeyError` on a missing
  key) and `reinsurer_hits / total_claims` (Python division,
  `ZeroDivisionError` on a zero denominator) are embedded with `Except`.
-/

namespace Reinsurance

/-- The Python exceptions the source can actually raise: `ZeroDivisionError`
from `std ** 2 / mean ** 2` and from `reinsurer_hits / total_claims`, and
`KeyError` from the dict lookup `PREMIUMS[R]`. -/
inductive PyError where
  | zeroDivisionError
  | keyError
  deriving DecidableEq, Repr

/-- A NumPy scalar: `some x` is a finite real; `none` stands for a
non-finite result (`nan` or an infinity), which NumPy propagates through
arithmetic instead of raising. -/
abbrev NpVal := Option ℝ

/-- Embedding of `np.log` on scalars: finite exactly on positive arguments
(`np.log` of `0` is `-inf`, of a negative number `nan`; neither raises). -/
noncomputable def npLog (v : NpVal) : NpVal :=
  v.bind fun x => if 0 < x then some (Real.log x) else none

/-- Embedding of `np.sqrt` on scalars: `nan` on negative arguments. -/
noncomputable def npSqrt (v : NpVal) : NpVal :=
  v.bind fun x => if 0 ≤ x then some (Real.sqrt x) else none

/-- NumPy scalar subtraction; non-finite operands propagate. -/
noncomputable def npSub (a b : NpVal) : NpVal :=
  a.bind fun x => b.map fun y => x - y

/-- NumPy scalar division; a zero denominator yields a non-finite value
(`inf` or `nan`), not an exception. -/
noncomputable def npDiv (a b : NpVal) : NpVal :=
  a.bind fun x => b.bind fun y => if y = 0 then none else some (x / y)

/-- Embedding of `lognormal_params` (src/reinsurance.py lines 70–74):

    sigma2 = np.log(1 + (std**2 / mean**2))
    sigma = np.sqrt(sigma2)
    mu = np.log(mean) - sigma2 / 2

`std ** 2 / mean ** 2` is Python float division and raises
`ZeroDivisionError` when `mean ** 2 == 0`; every later step is NumPy scalar
math, which does not raise. -/
noncomputable def lognormal_params (mean std : ℝ) : Except PyError (NpVal × NpVal) :=
  if mean ^ 2 = 0 then .error .zeroDivisionError
  else
    let sigma2 := npLog (some (1 + std ^ 2 / mean ^ 2))
    let sigma := npSqrt sigma2
    let mu := npSub (npLog (some mean)) (npDiv sigma2 (some 2))
    .ok (mu, sigma)

/-- Configuration constant `N_SIM` (src/reinsurance.py line 40). -/
def N_SIM : ℕ := 100000

/-- Configuration constant `N_POLICIES` (line 43). -/
def N_POLICIES : ℕ := 200

/-- Configuration constant `CLAIM_PROB` (line 46). -/
def CLAIM_PROB : ℚ := 0.20

/-- Configuration constant `RETENTIONS` (line 50). -/
def RETENTIONS : List ℚ := [25, 30]

/-- Configuration constant `PREMIUMS` (line 53), the premium dict as an
association list. -/
def PREMIUMS : List (ℚ × ℚ) := [(25, 48.5), (30, 38.2)]

/-- One draw of `np.random.binomial(1, p)` by inversion from a uniform
variate `u ∈ [0, 1)`: the draw is `1` exactly when `u < p`. -/
def bernoulli (p u : ℚ) : ℕ := if u < p then 1 else 0

/-- Claim count of one trial, `claims.sum()` (line 124), where `claims` are
the `N_POLICIES` Bernoulli draws obtained from the uniform variates `us`. -/
def n_claims (p : ℚ) (us : List ℚ) : ℕ := (us.map (bernoulli p)).sum

/-- The random draws one Monte Carlo trial consumes: `freq` are the uniform
variates behind `np.random.binomial(1, CLAIM_PROB, N_POLICIES)` (line 123),
`sev` the lognormal claim sizes drawn on line 131. -/
structure TrialDraws where
  freq : List ℚ
  sev : List ℚ

/-- A trial's draws are well formed when the severity step drew exactly
`n_claims` sizes, as `np.random.lognormal(mu, sigma, n_claims)` does. -/
def TrialDraws.WF (p : ℚ) (t : TrialDraws) : Prop :=
  t.sev.length = n_claims p t.freq

instance (p : ℚ) (t : TrialDraws) : Decidable (t.WF p) := by
  unfold TrialDraws.WF
  infer_instance

/-- Per-claim ceded amounts summed, lines 135–136:
`ceded = np.maximum(0, sizes - R); ceded_total = ceded.sum()`. -/
def ceded_total (R : ℚ) (sizes : List ℚ) : ℚ :=
  (sizes.map fun s => max 0 (s - R)).sum

/-- Total ceded loss of one trial (lines 126–136): initialised to `0` and
left there when `n_claims == 0`, otherwise the layered total of the drawn
sizes. -/
def trial_ceded (p R : ℚ) (t : TrialDraws) : ℚ :=
  if 0 < n_claims p t.freq then ceded_total R t.sev else 0

/-- Reinsurer-triggering claims of one trial, `np.sum(sizes > R)` (line
139), counted only inside the `n_claims > 0` branch. -/
def trial_hits (p R : ℚ) (t : TrialDraws) : ℕ :=
  if 0 < n_claims p t.freq then t.sev.countP (fun s => decide (R < s)) else 0

/-- Contribution of one trial to `total_claims` (line 140): `n_claims`,
added only inside the `n_claims > 0` branch. -/
def trial_claims (p : ℚ) (t : TrialDraws) : ℕ :=
  if 0 < n_claims p t.freq then n_claims p t.freq else 0

/-- The list `portfolio_losses` built by the simulation loop (lines
115–143): one ceded total appended per trial. -/
def portfolio_losses (p R : ℚ) (ts : List TrialDraws) : List ℚ :=
  ts.map (trial_ceded p R)

/-- The running accumulators `(reinsurer_hits, total_claims)` (lines
116–117, 139–140) after processing the given trials in order. -/
def run_counts (p R : ℚ) (ts : List TrialDraws) : ℕ × ℕ :=
  ts.foldl (fun acc t => (acc.1 + trial_hits p R t, acc.2 + trial_claims p t)) (0, 0)

/-- Final value of the `reinsurer_hits` accumulator over all trials. -/
def reinsurer_hits (p R : ℚ) (ts : List TrialDraws) : ℕ :=
  (ts.map (trial_hits p R)).sum

/-- Final value of the `total_claims` accumulator over all trials. -/
def total_claims (p : ℚ) (ts : List TrialDraws) : ℕ :=
  (ts.map (trial_claims p)).sum

/-- Arithmetic mean, `losses.mean()` (line 152) and the mean in
`losses[losses >= var_99].mean()` (line 161). -/
def np_mean (xs : List ℚ) : ℚ := xs.sum / xs.length

/-- Linear interpolation of a sorted sample `s` at the virtual index `h`:
the value `s[⌊h⌋] + (h - ⌊h⌋) * (s[⌊h⌋ + 1] - s[⌊h⌋])` NumPy's default
percentile method computes (with the second order statistic weighted by the
fractional part, which is `0` whenever `⌊h⌋` is the last index). -/
def interp (s : List ℚ) (h : ℚ) : ℚ :=
  s.getD (⌊h⌋).toNat 0 +
    (h - (((⌊h⌋).toNat : ℕ) : ℚ)) *
      (s.getD ((⌊h⌋).toNat + 1) 0 - s.getD (⌊h⌋).toNat 0)

/-- NumPy's default linear-interpolation percentile `np.percentile(a, q)`
(line 158): sort the data ascending and interpolate at the virtual index
`h = q/100 * (n - 1)`. -/
def np_percentile (q : ℚ) (xs : List ℚ) : ℚ :=
  interp (List.insertionSort (fun a b => a ≤ b) xs)
    (q / 100 * (((List.insertionSort (fun a b => a ≤ b) xs).length : ℚ) - 1))

/-- The `var_99` metric (line 158): `np.percentile(losses, 99)`. -/
def var_99 (xs : List ℚ) : ℚ := np_percentile 99 xs

/-- The `tvar_99` metric (line 161): `losses[losses >= var_99].mean()`. -/
def tvar_99 (xs : List ℚ) : ℚ :=
  np_mean (xs.filter fun x => decide (var_99 xs ≤ x))

/-- Population variance of the loss distribution: the quantity under the
square root in NumPy's default `losses.std()` (line 155), mean of squared
deviations with denominator `N`. -/
def var_pop (xs : List ℚ) : ℚ :=
  (xs.map fun x => (x - np_mean xs) ^ 2).sum / xs.length

/-- Embedding of `losses.std()` (line 155): NumPy's default `ddof=0`,
the square root of the population variance. -/
noncomputable def np_std (xs : List ℚ) : ℝ :=
  Real.sqrt ((var_pop xs : ℚ) : ℝ)

/-- Sample variance, denominator `N - 1`: the estimator the spec calls the
sample variance (what `losses.std(ddof=1)` would compute). -/
def var_sample (xs : List ℚ) : ℚ :=
  (xs.map fun x => (x - np_mean xs) ^ 2).sum / ((xs.length : ℚ) - 1)

/-- Sample standard deviation, denominator `N - 1`. -/
noncomputable def sample_std (xs : List ℚ) : ℝ :=
  Real.sqrt ((var_sample xs : ℚ) : ℝ)

/-- The `prob_reinsurer` metric (line 164): Python division
`reinsurer_hits / total_claims`, raising `ZeroDivisionError` when
`total_claims == 0`. -/
def prob_reinsurer (hits total : ℕ) : Except PyError ℚ :=
  if total = 0 then .error .zeroDivisionError
  else .ok ((hits : ℚ) / (total : ℚ))

/-- Python dict lookup `PREMIUMS[R]` (line 167): raises `KeyError` when the
key is absent. -/
def dict_get (d : List (ℚ × ℚ)) (k : ℚ) : Except PyError ℚ :=
  match d.lookup k with
  | some v => .ok v
  | none => .error .keyError

/-- The `value_for_money` metric (line 167): `mean_loss / PREMIUMS[R]`. -/
def value_for_money (mean_loss : ℚ) (d : List (ℚ × ℚ)) (R : ℚ) :
    Except PyError ℚ :=
  (dict_get d R).map fun prem => mean_loss / prem

end Reinsurance

namespace Reinsurance

/-- C2: for `mean > 0` and `std ≥ 0`, `lognormal_params` returns exactly
`mu = ln mean − sigma²/2` and `sigma = sqrt sigma²` with
`sigma² = ln (1 + std²/mean²)`; in particular for `std = 0` it returns
`sigma = 0` and `mu = ln mean` exactly. -/
theorem lognormal_params_spec (mean std : ℝ) (hm : 0 < mean) (hs : 0 ≤ std) :
    lognormal_params mean std =
      .ok (some (Real.log mean - Real.log (1 + std ^ 2 / mean ^ 2) / 2),
           some (Real.sqrt (Real.log (1 + std ^ 2 / mean ^ 2)))) ∧
    (std = 0 → lognormal_params mean std = .ok (some (Real.log mean), some 0)) := by
  have hm2 : mean ^ 2 ≠ 0 := pow_ne_zero 2 (ne_of_gt hm)
  have hq : 0 ≤ std ^ 2 / mean ^ 2 := div_nonneg (sq_nonneg _) (sq_nonneg _)
  have h1q : 0 < 1 + std ^ 2 / mean ^ 2 := by linarith
  have hlogq : 0 ≤ Real.log (1 + std ^ 2 / mean ^ 2) :=
    Real.log_nonneg (by linarith)
  have hmain : lognormal_params mean std =
      .ok (some (Real.log mean - Real.log (1 + std ^ 2 / mean ^ 2) / 2),
           some (Real.sqrt (Real.log (1 + std ^ 2 / mean ^ 2)))) := by
    simp [lognormal_params, npLog, npSqrt, npSub, npDiv, hm2, h1q, hlogq, hm]
  refine ⟨hmain, fun h0 => ?_⟩
  subst h0
  rw [hmain]
  norm_num

/-- Witness for C2 at `mean = 1`, `std = 0`. -/
theorem lognormal_params_spec_witness :
    (0:ℝ) < 1 ∧ (0:ℝ) ≤ 0 ∧
      lognormal_params 1 0 = .ok (some (Real.log 1), some 0) :=
  ⟨one_pos, le_refl 0, (lognormal_params_spec 1 0 one_pos (le_refl 0)).2 rfl⟩

/-- Counterexample to C7 as stated: at `mean = -1 ≤ 0`, `std = 1`, the code
does not fail at all — it returns normally, with a non-finite (`nan`) `mu`
coming from `np.log(-1)`. -/
theorem lognormal_params_neg_mean_no_failure :
    lognormal_params (-1) 1 = .ok (none, some (Real.sqrt (Real.log 2))) := by
  have h2 : (0:ℝ) ≤ Real.log 2 := Real.log_nonneg one_le_two
  have hm2 : ((-1:ℝ)) ^ 2 ≠ 0 := by norm_num
  have harg : (1:ℝ) + 1 ^ 2 / (-1) ^ 2 = 2 := by norm_num
  simp [lognormal_params, npLog, npSqrt, npSub, npDiv, hm2, harg, h2]
  constructor
  · norm_num [h2]
  · norm_num

/-- C7 amended: `lognormal_params` performs no validation.  For `mean = 0`
it raises `ZeroDivisionError` (from `std ** 2 / mean ** 2`), not an
`InvalidParameterError`; for `mean < 0` it raises nothing and returns a
non-finite `mu` alongside a genuine `sigma` (whose argument
`ln (1 + std²/mean²)` is never negative, so the defensive `sigma²` check the
spec asks for has nothing to reject). -/
theorem lognormal_params_bad_mean (mean std : ℝ) (h : mean ≤ 0) :
    (mean = 0 → lognormal_params mean std = .error .zeroDivisionError) ∧
    (mean < 0 → lognormal_params mean std =
      .ok (none, some (Real.sqrt (Real.log (1 + std ^ 2 / mean ^ 2))))) := by
  constructor
  · intro h0
    subst h0
    simp [lognormal_params]
  · intro hneg
    have hm2 : mean ^ 2 ≠ 0 := pow_ne_zero 2 (ne_of_lt hneg)
    have hq : 0 ≤ std ^ 2 / mean ^ 2 := div_nonneg (sq_nonneg _) (sq_nonneg _)
    have h1q : 0 < 1 + std ^ 2 / mean ^ 2 := by linarith
    have hlogq : 0 ≤ Real.log (1 + std ^ 2 / mean ^ 2) :=
      Real.log_nonneg (by linarith)
    simp [lognormal_params, npLog, npSqrt, npSub, npDiv, hm2, h1q, hlogq,
      not_lt.mpr (le_of_lt hneg)]

/-- Witness for the amended C7 at `mean = -1`, `std = 1`. -/
theorem lognormal_params_bad_mean_witness :
    (-1:ℝ) ≤ 0 ∧
      lognormal_params (-1) 1 =
        .ok (none, some (Real.sqrt (Real.log (1 + (1:ℝ) ^ 2 / (-1) ^ 2)))) :=
  ⟨by norm_num,
   (lognormal_params_bad_mean (-1) 1 (by norm_num)).2 (by norm_num)⟩

/-- C1: the engine's per-claim ceded amount is `max 0 (s - R)`, the trial
total is the sum of these over the trial's drawn claim sizes, and a trial
with no claims contributes a ceded total of `0`. -/
theorem trial_ceded_eq_sum_excess (p R : ℚ) (t : TrialDraws) (hwf : t.WF p) :
    trial_ceded p R t = (t.sev.map fun s => max 0 (s - R)).sum ∧
    (n_claims p t.freq = 0 → trial_ceded p R t = 0) := by
  constructor
  · by_cases h : 0 < n_claims p t.freq
    · simp [trial_ceded, if_pos h, ceded_total]
    · have h0 : n_claims p t.freq = 0 := Nat.eq_zero_of_not_pos h
      have hnil : t.sev = [] := List.length_eq_zero.mp (hwf.trans h0)
      simp [trial_ceded, if_neg h, hnil]
  · intro h0
    simp [trial_ceded, h0]

/-- Witness for C1: one policy that claims (`u = 0 < p = 1`), one drawn
size `30`, retention `25`. -/
theorem trial_ceded_eq_sum_excess_witness :
    (TrialDraws.mk [0] [30]).WF 1 ∧
      trial_ceded 1 25 (TrialDraws.mk [0] [30]) =
        ((TrialDraws.mk [0] [30]).sev.map fun s => max 0 (s - 25)).sum :=
  ⟨by decide, (trial_ceded_eq_sum_excess 1 25 (TrialDraws.mk [0] [30]) (by decide)).1⟩

/-- C6: when the total number of claims observed is zero, the
`reinsurer_hits / total_claims` computation fails with the division-by-zero
error rather than producing any rational value (in particular not `0`). -/
theorem prob_reinsurer_zero_total (p R : ℚ) (ts : List TrialDraws)
    (h : total_claims p ts = 0) :
    prob_reinsurer (reinsurer_hits p R ts) (total_claims p ts) =
      .error .zeroDivisionError ∧
    ∀ q : ℚ,
      prob_reinsurer (reinsurer_hits p R ts) (total_claims p ts) ≠ .ok q := by
  rw [h]
  exact ⟨by simp [prob_reinsurer], fun q => by simp [prob_reinsurer]⟩

/-- Witness for C6: one trial, claim probability `0`, so no claims ever. -/
theorem prob_reinsurer_zero_total_witness :
    total_claims 0 [TrialDraws.mk [0] []] = 0 ∧
      prob_reinsurer (reinsurer_hits 0 25 [TrialDraws.mk [0] []])
          (total_claims 0 [TrialDraws.mk [0] []]) =
        .error .zeroDivisionError :=
  ⟨by decide, (prob_reinsurer_zero_total 0 25 [TrialDraws.mk [0] []] (by decide)).1⟩

/-- C8: when the retention level is absent from the premium table, the
value-for-money computation fails with the missing-key error and never
returns a value (in particular never the sentinel `0`). -/
theorem value_for_money_missing_premium (m R : ℚ) (d : List (ℚ × ℚ))
    (h : d.lookup R = none) :
    value_for_money m d R = .error .keyError ∧
    ∀ q : ℚ, value_for_money m d R ≠ .ok q := by
  constructor
  · simp [value_for_money, dict_get, h, Except.map]
  · intro q
    simp [value_for_money, dict_get, h, Except.map]

/-- Witness for C8: the source's premium table has no entry for `R = 28`. -/
theorem value_for_money_missing_premium_witness :
    PREMIUMS.lookup (28:ℚ) = none ∧
      value_for_money 5 PREMIUMS 28 = .error .keyError :=
  ⟨by decide, (value_for_money_missing_premium 5 28 PREMIUMS (by decide)).1⟩

/-- Raising the retention can only lower each per-claim excess, hence the
trial's layered total. -/
lemma ceded_total_anti {R1 R2 : ℚ} (hR : R1 ≤ R2) (sizes : List ℚ) :
    ceded_total R2 sizes ≤ ceded_total R1 sizes := by
  unfold ceded_total
  refine List.sum_le_sum fun s _ => ?_
  exact max_le_max le_rfl (sub_le_sub_left hR s)

/-- Raising the retention can only lower a trial's ceded total. -/
lemma trial_ceded_anti (p : ℚ) {R1 R2 : ℚ} (hR : R1 ≤ R2) (t : TrialDraws) :
    trial_ceded p R2 t ≤ trial_ceded p R1 t := by
  unfold trial_ceded
  split
  · exact ceded_total_anti hR t.sev
  · exact le_refl 0

/-- Raising the retention can only lower a trial's count of triggering
claims. -/
lemma trial_hits_anti (p : ℚ) {R1 R2 : ℚ} (hR : R1 ≤ R2) (t : TrialDraws) :
    trial_hits p R2 t ≤ trial_hits p R1 t := by
  unfold trial_hits
  split
  · refine List.countP_mono_left fun s _ hs => ?_
    exact decide_eq_true (lt_of_le_of_lt hR (of_decide_eq_true hs))
  · exact le_refl 0

/-- C3: with the simulated claim counts and claim sizes held fixed, raising
the retention from `R1` to `R2 ≥ R1` can only lower the Expected Ceded Loss
and can only lower P(Reinsurer Pays). -/
theorem retention_monotone (p R1 R2 : ℚ) (ts : List TrialDraws) (hR : R1 ≤ R2) :
    np_mean (portfolio_losses p R2 ts) ≤ np_mean (portfolio_losses p R1 ts) ∧
    ∀ q1 q2 : ℚ,
      prob_reinsurer (reinsurer_hits p R1 ts) (total_claims p ts) = .ok q1 →
      prob_reinsurer (reinsurer_hits p R2 ts) (total_claims p ts) = .ok q2 →
      q2 ≤ q1 := by
  constructor
  · by_cases hts : ts = []
    · subst hts
      simp [np_mean, portfolio_losses]
    · have hlen : (0:ℚ) < (ts.length : ℚ) := by
        exact_mod_cast List.length_pos.mpr hts
      have hsum : (ts.map (trial_ceded p R2)).sum ≤ (ts.map (trial_ceded p R1)).sum :=
        List.sum_le_sum fun t _ => trial_ceded_anti p hR t
      unfold np_mean portfolio_losses
      simp only [List.length_map]
      exact (div_le_div_iff_of_pos_right hlen).mpr hsum
  · intro q1 q2 h1 h2
    unfold prob_reinsurer at h1 h2
    by_cases h0 : total_claims p ts = 0
    · rw [if_pos h0] at h1
      exact absurd h1 (by simp)
    · rw [if_neg h0] at h1 h2
      have hq1 : ((reinsurer_hits p R1 ts : ℚ) / (total_claims p ts : ℚ)) = q1 := by
        simpa using h1
      have hq2 : ((reinsurer_hits p R2 ts : ℚ) / (total_claims p ts : ℚ)) = q2 := by
        simpa using h2
      have hhits : reinsurer_hits p R2 ts ≤ reinsurer_hits p R1 ts :=
        List.sum_le_sum fun t _ => trial_hits_anti p hR t
      have hpos : (0:ℚ) < (total_claims p ts : ℚ) := by
        exact_mod_cast Nat.pos_of_ne_zero h0
      rw [← hq1, ← hq2]
      exact (div_le_div_iff_of_pos_right hpos).mpr (by exact_mod_cast hhits)

/-- Witness for C3: one trial with one claim of size `40`, retentions `25`
and `30` from the source configuration. -/
theorem retention_monotone_witness :
    (25:ℚ) ≤ 30 ∧
      np_mean (portfolio_losses 1 30 [TrialDraws.mk [0] [40]]) ≤
        np_mean (portfolio_losses 1 25 [TrialDraws.mk [0] [40]]) ∧
      (1:ℚ) ≤ 1 :=
  ⟨by norm_num,
   (retention_monotone 1 25 30 [TrialDraws.mk [0] [40]] (by norm_num)).1,
   (retention_monotone 1 25 30 [TrialDraws.mk [0] [40]] (by norm_num)).2 1 1
     (by
       have ha : reinsurer_hits 1 25 [TrialDraws.mk [0] [40]] = 1 := by decide
       have hb : total_claims 1 [TrialDraws.mk [0] [40]] = 1 := by decide
       rw [ha, hb]
       norm_num [prob_reinsurer])
     (by
       have ha : reinsurer_hits 1 30 [TrialDraws.mk [0] [40]] = 1 := by decide
       have hb : total_claims 1 [TrialDraws.mk [0] [40]] = 1 := by decide
       rw [ha, hb]
       norm_num [prob_reinsurer])⟩

/-- Counterexample to C5 as stated: on the loss distribution `[0, 2]` the
code's `losses.std()` (population standard deviation, denominator `N`)
is `1`, while the sample standard deviation (denominator `N - 1`) is
`√2`. -/
theorem np_std_ne_sample_std : np_std [0, 2] ≠ sample_std [0, 2] := by
  have h1 : var_pop [0, 2] = 1 := by
    norm_num [var_pop, np_mean]
  have h2 : var_sample [0, 2] = 2 := by
    norm_num [var_sample, np_mean]
  rw [np_std, sample_std, h1, h2]
  simp only [Rat.cast_one, Rat.cast_ofNat, Real.sqrt_one]
  intro h
  have h2' : (2:ℝ) = 1 := Real.sqrt_eq_one.mp h.symm
  norm_num at h2'

/-- C5 amended: the reported Risk metric is the population standard
deviation (denominator `N`); it understates the sample standard deviation
(denominator `N - 1`) by exactly the factor `√(N / (N - 1))`. -/
theorem sample_std_eq_scaled_np_std (xs : List ℚ) (h : 2 ≤ xs.length) :
    sample_std xs =
      Real.sqrt ((xs.length : ℝ) / ((xs.length : ℝ) - 1)) * np_std xs := by
  have hn : (2:ℝ) ≤ (xs.length : ℝ) := by exact_mod_cast h
  have hn0 : (xs.length : ℝ) ≠ 0 := by linarith
  have hn1 : (xs.length : ℝ) - 1 ≠ 0 := by linarith
  have hS : (0:ℝ) ≤ ((xs.map fun x => (x - np_mean xs) ^ 2).sum : ℚ) := by
    have : (0:ℚ) ≤ (xs.map fun x => (x - np_mean xs) ^ 2).sum := by
      refine List.sum_nonneg fun x hx => ?_
      obtain ⟨y, _, rfl⟩ := List.mem_map.mp hx
      exact sq_nonneg _
    exact_mod_cast this
  have hfrac : (0:ℝ) ≤ (xs.length : ℝ) / ((xs.length : ℝ) - 1) := by
    apply div_nonneg <;> linarith
  rw [sample_std, np_std, var_sample, var_pop, ← Real.sqrt_mul hfrac]
  congr 1
  push_cast
  field_simp
  ring

/-- Witness for the amended C5 at the two-point loss distribution `[0, 2]`. -/
theorem sample_std_eq_scaled_np_std_witness :
    2 ≤ ([0, 2] : List ℚ).length ∧
      sample_std [0, 2] =
        Real.sqrt ((([0, 2] : List ℚ).length : ℝ) /
          ((([0, 2] : List ℚ).length : ℝ) - 1)) * np_std [0, 2] :=
  ⟨by decide, sample_std_eq_scaled_np_std [0, 2] (by decide)⟩

/-- A Bernoulli draw with success probability `0` is `0` for any uniform
variate in `[0, 1)`. -/
lemma bernoulli_zero (u : ℚ) (hu : 0 ≤ u) : bernoulli 0 u = 0 :=
  if_neg (not_lt.mpr hu)

/-- With claim probability `0`, no trial produces any claim. -/
lemma n_claims_zero (us : List ℚ) (hu : ∀ u ∈ us, 0 ≤ u) :
    n_claims 0 us = 0 := by
  unfold n_claims
  refine List.sum_eq_zero fun x hx => ?_
  obtain ⟨u, hu', rfl⟩ := List.mem_map.mp hx
  exact bernoulli_zero u (hu u hu')

/-- Reading an all-zero list with default `0` always yields `0`. -/
lemma getD_replicate_zero : ∀ (n i : ℕ), (List.replicate n (0:ℚ)).getD i 0 = 0 := by
  intro n
  induction n with
  | zero => intro i; simp
  | succ n ih =>
    intro i
    cases i with
    | zero => simp [List.replicate_succ]
    | succ i => simp [List.replicate_succ, ih i]

/-- Sorting an all-zero list returns it unchanged. -/
lemma sort_replicate_zero (n : ℕ) :
    List.insertionSort (fun a b => a ≤ b) (List.replicate n (0:ℚ)) =
      List.replicate n 0 := by
  refine List.eq_replicate_iff.mpr ⟨?_, ?_⟩
  · exact (List.perm_insertionSort _ _).length_eq.trans (List.length_replicate _ _)
  · intro b hb
    exact List.eq_of_mem_replicate ((List.perm_insertionSort _ _).subset hb)

/-- The interpolated percentile of an all-zero loss distribution is `0`. -/
lemma np_percentile_replicate_zero (q : ℚ) (n : ℕ) :
    np_percentile q (List.replicate n 0) = 0 := by
  unfold np_percentile
  rw [sort_replicate_zero]
  unfold interp
  rw [getD_replicate_zero, getD_replicate_zero]
  ring

/-- C9: with `CLAIM_PROB = 0` every trial's ceded total is exactly `0`, so
the loss distribution is all zeros and Expected Ceded Loss, VaR 99% and
TVaR 99% are all `0`, at every retention level. -/
theorem zero_claim_prob_metrics (R : ℚ) (ts : List TrialDraws) (_hne : ts ≠ [])
    (hu : ∀ t ∈ ts, ∀ u ∈ t.freq, 0 ≤ u) :
    portfolio_losses 0 R ts = List.replicate ts.length 0 ∧
    np_mean (portfolio_losses 0 R ts) = 0 ∧
    var_99 (portfolio_losses 0 R ts) = 0 ∧
    tvar_99 (portfolio_losses 0 R ts) = 0 := by
  have hrep : portfolio_losses 0 R ts = List.replicate ts.length 0 := by
    refine List.eq_replicate_iff.mpr ⟨by simp [portfolio_losses], ?_⟩
    intro b hb
    obtain ⟨t, ht, rfl⟩ := List.mem_map.mp hb
    simp [trial_ceded, n_claims_zero t.freq (hu t ht)]
  have hvar : var_99 (List.replicate ts.length (0:ℚ)) = 0 :=
    np_percentile_replicate_zero 99 ts.length
  refine ⟨hrep, ?_, ?_, ?_⟩
  · rw [hrep]; simp [np_mean]
  · rw [hrep]; exact hvar
  · rw [hrep]
    unfold tvar_99
    rw [hvar]
    simp [np_mean, List.filter_replicate]

/-- Witness for C9: one trial, one policy, uniform variate `0`. -/
theorem zero_claim_prob_metrics_witness :
    ([TrialDraws.mk [0] []] ≠ ([] : List TrialDraws)) ∧
      var_99 (portfolio_losses 0 25 [TrialDraws.mk [0] []]) = 0 :=
  ⟨List.cons_ne_nil _ _,
   (zero_claim_prob_metrics 25 [TrialDraws.mk [0] []]
     (List.cons_ne_nil _ _) (by decide)).2.2.1⟩

/-- Under well-formed draws a trial's triggering-claim count cannot exceed
its claim count. -/
lemma trial_hits_le_claims (p R : ℚ) (t : TrialDraws) (hwf : t.WF p) :
    trial_hits p R t ≤ trial_claims p t := by
  unfold trial_hits trial_claims
  split
  · exact le_trans (List.countP_le_length _) (le_of_eq hwf)
  · exact le_refl 0

/-- The running accumulators are the partial sums of the per-trial
contributions. -/
lemma run_counts_eq (p R : ℚ) (ts : List TrialDraws) :
    run_counts p R ts = (reinsurer_hits p R ts, total_claims p ts) := by
  suffices h : ∀ (l : List TrialDraws) (a b : ℕ),
      l.foldl (fun acc t => (acc.1 + trial_hits p R t, acc.2 + trial_claims p t)) (a, b) =
        (a + reinsurer_hits p R l, b + total_claims p l) by
    simpa [run_counts] using h ts 0 0
  intro l
  induction l with
  | nil => intro a b; simp [reinsurer_hits, total_claims]
  | cons t l ih =>
    intro a b
    rw [List.foldl_cons, ih]
    simp only [reinsurer_hits, total_claims, List.map_cons, List.sum_cons,
      Prod.mk.injEq]
    constructor <;> omega

/-- C10: after every trial the running count of reinsurer-triggering claims
is at most the running total of claims observed; hence whenever the latter
is positive, P(Reinsurer Pays) lies in `[0, 1]`. -/
theorem hits_within_claims (p R : ℚ) (ts : List TrialDraws)
    (hwf : ∀ t ∈ ts, t.WF p) :
    (∀ k, (run_counts p R (ts.take k)).1 ≤ (run_counts p R (ts.take k)).2) ∧
    ∀ q : ℚ,
      prob_reinsurer (reinsurer_hits p R ts) (total_claims p ts) = .ok q →
      0 ≤ q ∧ q ≤ 1 := by
  have key : ∀ l : List TrialDraws, (∀ t ∈ l, t.WF p) →
      reinsurer_hits p R l ≤ total_claims p l := by
    intro l hl
    exact List.sum_le_sum fun t ht => trial_hits_le_claims p R t (hl t ht)
  constructor
  · intro k
    rw [run_counts_eq]
    exact key _ fun t ht => hwf t (List.mem_of_mem_take ht)
  · intro q hq
    unfold prob_reinsurer at hq
    by_cases h0 : total_claims p ts = 0
    · rw [if_pos h0] at hq
      exact absurd hq (by simp)
    · rw [if_neg h0] at hq
      have hq' : ((reinsurer_hits p R ts : ℚ) / (total_claims p ts : ℚ)) = q := by
        simpa using hq
      have hpos : (0:ℚ) < (total_claims p ts : ℚ) := by
        exact_mod_cast Nat.pos_of_ne_zero h0
      rw [← hq']
      refine ⟨by positivity, ?_⟩
      rw [div_le_one hpos]
      exact_mod_cast key ts hwf

/-- Witness for C10: one well-formed trial with one claim of size `30`. -/
theorem hits_within_claims_witness :
    (TrialDraws.mk [0] [30]).WF 1 ∧
      (run_counts 1 25 ([TrialDraws.mk [0] [30]].take 1)).1 ≤
        (run_counts 1 25 ([TrialDraws.mk [0] [30]].take 1)).2 ∧
      (0 ≤ (1:ℚ) ∧ (1:ℚ) ≤ 1) :=
  ⟨by decide,
   (hits_within_claims 1 25 [TrialDraws.mk [0] [30]] (by decide)).1 1,
   (hits_within_claims 1 25 [TrialDraws.mk [0] [30]] (by decide)).2 1
     (by
       have ha : reinsurer_hits 1 25 [TrialDraws.mk [0] [30]] = 1 := by decide
       have hb : total_claims 1 [TrialDraws.mk [0] [30]] = 1 := by decide
       rw [ha, hb]
       norm_num [prob_reinsurer])⟩

/-- An entry read with `getD` inside the bounds is a member of the list. -/
lemma getD_mem {s : List ℚ} {i : ℕ} (h : i < s.length) : s.getD i 0 ∈ s := by
  rw [List.getD_eq_getElem?_getD, List.getElem?_eq_getElem h, Option.getD_some]
  exact List.getElem_mem h

/-- A point on the segment between `A` and `B` is below one of its ends. -/
lemma convex_le_max (A B g : ℚ) (hg0 : 0 ≤ g) (hg1 : g ≤ 1) :
    A + g * (B - A) ≤ A ∨ A + g * (B - A) ≤ B := by
  rcases le_total A B with hAB | hAB
  · right; nlinarith
  · left; nlinarith

/-- The interpolated value at a virtual index strictly inside the sample is
bounded by some sample element. -/
lemma interp_le_of_lt (s : List ℚ) (hq : ℚ) (h0 : 0 ≤ hq)
    (hlt : hq < (s.length : ℚ) - 1) :
    ∃ m ∈ s, interp s hq ≤ m := by
  unfold interp
  have hfl : (0:ℤ) ≤ ⌊hq⌋ := Int.floor_nonneg.mpr h0
  have hic : (((⌊hq⌋).toNat : ℕ) : ℚ) = ((⌊hq⌋ : ℤ) : ℚ) := by
    exact_mod_cast congrArg (fun z : ℤ => (z : ℚ)) (Int.toNat_of_nonneg hfl)
  have hg0 : 0 ≤ hq - (((⌊hq⌋).toNat : ℕ) : ℚ) := by
    rw [hic]
    have := Int.floor_le hq
    linarith
  have hg1 : hq - (((⌊hq⌋).toNat : ℕ) : ℚ) ≤ 1 := by
    rw [hic]
    have := Int.lt_floor_add_one hq
    linarith
  have hi1 : (⌊hq⌋).toNat + 1 < s.length := by
    have h1 : (((⌊hq⌋).toNat : ℕ) : ℚ) + 1 < (s.length : ℚ) := by
      rw [hic]
      have := Int.floor_le hq
      linarith
    exact_mod_cast h1
  have hi0 : (⌊hq⌋).toNat < s.length := Nat.lt_of_succ_lt hi1
  rcases convex_le_max (s.getD (⌊hq⌋).toNat 0) (s.getD ((⌊hq⌋).toNat + 1) 0)
      (hq - (((⌊hq⌋).toNat : ℕ) : ℚ)) hg0 hg1 with hc | hc
  · exact ⟨s.getD (⌊hq⌋).toNat 0, getD_mem hi0, hc⟩
  · exact ⟨s.getD ((⌊hq⌋).toNat + 1) 0, getD_mem hi1, hc⟩

/-- A lower bound on every element of a nonempty list bounds its mean. -/
lemma le_np_mean_of_forall_le (xs : List ℚ) (v : ℚ) (hne : xs ≠ [])
    (h : ∀ x ∈ xs, v ≤ x) : v ≤ np_mean xs := by
  have hlen : (0:ℚ) < (xs.length : ℚ) := by
    exact_mod_cast List.length_pos.mpr hne
  rw [np_mean, le_div_iff₀ hlen]
  calc v * (xs.length : ℚ) = xs.length • v := by rw [nsmul_eq_mul, mul_comm]
    _ ≤ xs.sum := List.card_nsmul_le_sum xs v h

/-- C4: on a loss distribution with more than one distinct value, the
computed TVaR 99% (mean of all values at or above the VaR 99% percentile)
is at least the computed VaR 99%. -/
theorem tvar_ge_var (xs : List ℚ) (h : ∃ a ∈ xs, ∃ b ∈ xs, a ≠ b) :
    var_99 xs ≤ tvar_99 xs := by
  obtain ⟨a, ha, b, hb, hab⟩ := h
  have hn2 : 2 ≤ xs.length := by
    rcases xs with _ | ⟨x, l⟩
    · exact absurd ha (List.not_mem_nil a)
    · rcases l with _ | ⟨y, l⟩
      · simp only [List.mem_singleton] at ha hb
        exact absurd (ha.trans hb.symm) hab
      · simp only [List.length_cons]
        omega
  set s := List.insertionSort (fun a b => a ≤ b) xs with hs
  have hperm : s.Perm xs := List.perm_insertionSort _ xs
  have hslen : (2:ℚ) ≤ (s.length : ℚ) := by
    rw [hperm.length_eq]
    exact_mod_cast hn2
  have hvar : var_99 xs = interp s (99 / 100 * ((s.length : ℚ) - 1)) := rfl
  have h0 : 0 ≤ 99 / 100 * ((s.length : ℚ) - 1) := by
    apply mul_nonneg
    · norm_num
    · linarith
  have hlt : 99 / 100 * ((s.length : ℚ) - 1) < (s.length : ℚ) - 1 := by
    apply mul_lt_of_lt_one_left
    · linarith
    · norm_num
  obtain ⟨m, hm_s, hvm⟩ := interp_le_of_lt s _ h0 hlt
  rw [← hvar] at hvm
  have hm_xs : m ∈ xs := hperm.subset hm_s
  have hm_f : m ∈ xs.filter fun x => decide (var_99 xs ≤ x) :=
    List.mem_filter.mpr ⟨hm_xs, decide_eq_true hvm⟩
  have hall : ∀ x ∈ xs.filter fun x => decide (var_99 xs ≤ x), var_99 xs ≤ x :=
    fun x hx => of_decide_eq_true (List.mem_filter.mp hx).2
  have hmean := le_np_mean_of_forall_le _ (var_99 xs)
    (List.ne_nil_of_mem hm_f) hall
  unfold tvar_99
  exact hmean

/-- Witness for C4 at the two-valued loss distribution `[0, 1]`. -/
theorem tvar_ge_var_witness :
    (∃ a ∈ ([0, 1] : List ℚ), ∃ b ∈ ([0, 1] : List ℚ), a ≠ b) ∧
      var_99 ([0, 1] : List ℚ) ≤ tvar_99 ([0, 1] : List ℚ) :=
  ⟨⟨0, by simp, 1, by simp, by norm_num⟩,
   tvar_ge_var [0, 1] ⟨0, by simp, 1, by simp, by norm_num⟩⟩

end Reinsurance
